import Mathlib

set_option linter.unusedVariables false

/-! Shallow embedding of the cardinal/ordinal/year/currency pipeline of
src/src/lang/nl.rs (Dutch) and src/src/lang/fy.rs (Frisian).  The two files
are textually identical up to the lexical constants (word tables, the
"hundred" word, the ordinal-suffix trigger, the infinity words and the BC
suffix); the shared algorithm is embedded once, parameterized by a
`LangData` record holding exactly those constants, and instantiated twice. -/

/-- Error enum of the crate (declared in the crate root, used by src/src/lang). -/
inductive Num2Err
  | CannotConvert
  | NegativeOrdinal
  | FloatingOrdinal
  | InfiniteOrdinal
  | FloatingYear
  | InfiniteYear
  deriving DecidableEq, Repr

/-- Runtime outcome layer: `panic` models a Rust panic (a failed
`unwrap()` or an out-of-bounds slice index), `conv e` a returned
`Err(e)`. -/
inductive RunErr
  | panic
  | conv (e : Num2Err)
  deriving DecidableEq, Repr

/-- Result type of the embedded functions: `Except.ok s` models `Ok(s)`,
`Except.error (.conv e)` models `Err(e)`, `Except.error .panic` a panic. -/
abbrev M (α : Type) := Except RunErr α

/-- Checked slice indexing `table[i]`: out of bounds is a panic. -/
def idx (l : List String) (i : Nat) : M String :=
  match l.get? i with
  | some w => .ok w
  | none => .error .panic

/-- Checked `Option::unwrap()` on a numeric conversion result. -/
def unwrapN (o : Option Nat) : M Nat :=
  match o with
  | some n => .ok n
  | none => .error .panic

/-- Checked `Option::unwrap()` on a signed numeric conversion result. -/
def unwrapZ (o : Option Int) : M Int :=
  match o with
  | some z => .ok z
  | none => .error .panic

@[simp] theorem unwrapZ_some (z : Int) : unwrapZ (some z) = .ok z := rfl

@[simp] theorem ok_bind {α β : Type} (a : α) (f : α → M β) :
    (Except.ok a : M α) >>= f = f a := rfl

@[simp] theorem error_bind {α β : Type} (e : RunErr) (f : α → M β) :
    (Except.error e : M α) >>= f = .error e := rfl

/-- Per-locale lexical constants of nl.rs / fy.rs. -/
structure LangData where
  units : List String
  tens : List String
  teens : List String
  megas : List String
  hundred : String
  /-- The literal the smallest scale word is compared against in
  space_words (`!word.eq("duizend")` resp. `!word.eq("tûzen")`). -/
  thousandLit : String
  infPos : String
  infNeg : String
  bcSuffix : String
  /-- Suffix trigger of the ordinal default rule (`ends_with("tig")`
  resp. `ends_with("tich")`). -/
  ordTrigger : String
  /-- The closed ordinal lookup table (match arms of to_ordinal). -/
  ordTable : List (String × String)

/-- Constants of src/src/lang/nl.rs. -/
def Dutch : LangData where
  units := ["één", "twee", "drie", "vier", "vijf", "zes", "zeven", "acht", "negen"]
  tens := ["tien", "twintig", "dertig", "veertig", "vijftig", "zestig", "zeventig",
           "tachtig", "negentig"]
  teens := ["tien", "elf", "twaalf", "dertien", "veertien", "vijftien", "zestien",
            "zeventien", "achtien", "negentien"]
  megas := ["duizend", "miljoen", "miljard", "biljoen", "biljard", "triljoen",
            "triljard", "quadriljoen", "quadriljard", "quintiljoen", "quintiljard",
            "sextiljoen", "sextiljard", "septiljoen", "septiljard", "octiljoen",
            "octiljard", "noniljoen", "noniljard", "deciljoen", "deciljard"]
  hundred := "honderd"
  thousandLit := "duizend"
  infPos := "oneindig"
  infNeg := "negatief oneindig"
  bcSuffix := " voor christus"
  ordTrigger := "tig"
  ordTable := [("one", "eerste"), ("two", "tweede"), ("three", "derde"),
               ("four", "vierde"), ("five", "vijfde"), ("six", "zesde"),
               ("seven", "zevende"), ("eight", "achtste"), ("nine", "negende"),
               ("ten", "tiende"), ("eleven", "elfde"), ("twelve", "twaalfde")]

/-- Constants of src/src/lang/fy.rs. -/
def Frisian : LangData where
  units := ["ien", "twa", "trije", "fjouwer", "fiif", "seis", "sân", "acht", "njoggen"]
  tens := ["tsien", "tweintich", "tritich", "fjirtich", "fyftich", "sechstich",
           "santich", "tachtig", "njoggentich"]
  teens := ["tsien", "alve", "tolve", "trettjin", "fjirtjin", "fyftjin", "sechstjin",
            "santjin", "achtsje", "njoggentjin"]
  megas := ["tûzen", "miljoen", "miljard", "biljoen", "biljard", "triljoen",
            "triljard", "quadriljoen", "quadriljard", "quintiljoen", "quintiljard",
            "sextiljoen", "sextiljard", "septiljoen", "septiljard", "octiljoen",
            "octiljard", "noniljoen", "noniljard", "deciljoen", "deciljard"]
  hundred := "hûndert"
  thousandLit := "tûzen"
  infPos := "ûneinich"
  infNeg := "negatyf ûneinich"
  bcSuffix := " foar kristus"
  ordTrigger := "tich"
  ordTable := [("one", "earste"), ("two", "twadde"), ("three", "tredde"),
               ("four", "fjirde"), ("five", "vijfde"), ("six", "sechsde"),
               ("seven", "sânde"), ("eight", "achtste"), ("nine", "njoggende"),
               ("ten", "tsiende"), ("eleven", "alfde"), ("twelve", "tolfde")]

/-! ### split_thousands -/

/-- Fueled base-1000 decomposition; the fuel only forces termination and
`split_thousands` below supplies enough of it. -/
def splitGo : Nat → Nat → List Nat
  | _, 0 => []
  | 0, _ + 1 => []
  | f + 1, n + 1 => (n + 1) % 1000 :: splitGo f ((n + 1) / 1000)

theorem splitGo_zero (f : Nat) : splitGo f 0 = [] := by
  cases f <;> rfl

theorem splitGo_congr : ∀ f₁ f₂ n, n ≤ f₁ → n ≤ f₂ → splitGo f₁ n = splitGo f₂ n := by
  intro f₁
  induction f₁ using Nat.strong_induction_on with
  | _ f₁ ih =>
    intro f₂ n h₁ h₂
    match f₁, f₂, n with
    | g₁, g₂, 0 => rw [splitGo_zero, splitGo_zero]
    | 0, _, n + 1 => omega
    | _, 0, n + 1 => omega
    | g₁ + 1, g₂ + 1, n + 1 =>
      simp only [splitGo]
      have hd : (n + 1) / 1000 < n + 1 := Nat.div_lt_self (Nat.succ_pos n) (by omega)
      have := ih g₁ (by omega) g₂ ((n + 1) / 1000) (by omega) (by omega)
      rw [this]

/-- Dutch::split_thousands / Frisian::split_thousands: repeatedly push
`num % 1000` and divide by 1000 until the integer part is zero.  Every
caller passes a non-negative integer-valued BigFloat, embedded as `Nat`. -/
def split_thousands (n : Nat) : List Nat := splitGo n n

theorem split_thousands_eq (n : Nat) :
    split_thousands n = if n = 0 then [] else n % 1000 :: split_thousands (n / 1000) := by
  match n with
  | 0 => rfl
  | m + 1 =>
    simp only [split_thousands, splitGo, Nat.succ_ne_zero, if_false]
    have hd : (m + 1) / 1000 ≤ m := by
      have := Nat.div_lt_self (Nat.succ_pos m) (show 1 < 1000 by omega)
      omega
    exact congrArg _ (splitGo_congr m ((m + 1) / 1000) ((m + 1) / 1000) hd le_rfl)

/-! ### space_words -/

/-- Separator insertions of one space_words iteration, for the word
found at index `x`. -/
def spaceAct (L : LangData) (words : List String) (x : Nat) (word : String) :
    List String :=
  if word = "minus" then words.insertIdx (x + 1) " "
  else if word = "komma" then words.insertIdx x " "
  else if word ∈ L.megas then
    let ws := if x ≠ words.length - 1 then words.insertIdx (x + 1) " " else words
    if word ≠ L.thousandLit then ws.insertIdx x " " else ws
  else words

/-- One iteration of the space_words loop at index `x` (reading the word
at `x` and inserting separator tokens at `x` and/or `x+1`). -/
def space_step (L : LangData) (words : List String) (x : Nat) : List String :=
  match words.get? x with
  | none => words
  | some word => spaceAct L words x word

/-- The loop `for x in (0..words.len()).rev()`: the range is captured
before the first iteration, and every insertion happens at an index ≥ x,
so positions below x are untouched when x is processed. -/
def space_go (L : LangData) : List String → Nat → List String
  | words, 0 => words
  | words, x + 1 => space_go L (space_step L words x) x

/-- fn space_words (nl.rs / fy.rs lines 54-70). -/
def space_words (L : LangData) (words : List String) : List String :=
  space_go L words words.length

/-! ### int_to_cardinal -/

/-- Last character test `word.ends_with('e')` (a char pattern in Rust). -/
def endsWithE (s : String) : Bool := s.data.getLast? == some 'e'

/-- Hundreds section of the triplet loop: if the hundreds digit is
above 1 emit its unit word, and if it is nonzero emit the hundred word. -/
def hundredsWords (L : LangData) (hundreds : Nat) (ws : List String) : M (List String) :=
  if hundreds > 0 then
    if hundreds > 1 then do
      let u ← idx L.units (hundreds - 1)
      .ok (ws ++ [u] ++ [L.hundred])
    else .ok (ws ++ [L.hundred])
  else .ok ws

/-- Inter-group conjunction step: on the ones group, when a previous
group already cleared the first_elem flag, and the preceding token is
not a scale word, push "ën" (previous token ends in 'e') or "en";
otherwise clear the flag. -/
def conjPart (L : LangData) (i : Nat) (flag : Bool) (ws : List String) :
    List String × Bool :=
  if i = 0 ∧ flag = false then
    (match ws.getLast? with
     | some last =>
       if last ∈ L.megas then ws
       else if endsWithE last then ws ++ ["ën"] else ws ++ ["en"]
     | none => ws,
     flag)
  else (ws, false)

/-- Tens/units section: unit word, teen word, or fused
unit-conjunction-tens compound. -/
def tensUnitsWords (L : LangData) (tens units : Nat) (ws : List String) :
    M (List String) :=
  match tens with
  | 0 => do
    let u ← idx L.units (units - 1)
    .ok (ws ++ [u])
  | 1 => do
    let t ← idx L.teens units
    .ok (ws ++ [t])
  | _ => do
    let ten ← idx L.tens (tens - 1)
    match units with
    | 0 => .ok (ws ++ [ten])
    | _ => do
      let u ← idx L.units (units - 1)
      .ok (ws ++ [if endsWithE u then u ++ "ën" ++ ten else u ++ "en" ++ ten])

/-- Scale-word section: for a nonzero triplet at group index i > 0 push
the scale word at table index i-1, or fail with CannotConvert when i
exceeds the table length. -/
def megaPart (L : LangData) (i t : Nat) (ws : List String) : M (List String) :=
  if i ≠ 0 ∧ t ≠ 0 then
    if i > L.megas.length then .error (.conv .CannotConvert)
    else do
      let m ← idx L.megas (i - 1)
      .ok (ws ++ [m])
  else .ok ws

/-- Body of one iteration of the triplet loop of int_to_cardinal
(nl.rs / fy.rs lines 114-173) for group index i and triplet t. -/
def assembleStep (L : LangData) (i t : Nat) (ws : List String) (flag : Bool) :
    M (List String × Bool) := do
  let hundreds := t / 100 % 10
  let tens := t / 10 % 10
  let units := t % 10
  let ws ← hundredsWords L hundreds ws
  let (ws, flag) ←
    if tens ≠ 0 ∨ units ≠ 0 then do
      let (ws, flag) := conjPart L i flag ws
      let ws ← tensUnitsWords L tens units ws
      (.ok (ws, flag) : M (List String × Bool))
    else .ok (ws, flag)
  let ws ← megaPart L i t ws
  .ok (ws, flag)

/-- The triplet loop: the list argument is the enumerated decomposition
in most-significant-first order. -/
def assemble (L : LangData) : List (Nat × Nat) → List String → Bool → M (List String)
  | [], ws, _ => .ok ws
  | (i, t) :: rest, ws, flag => do
    let (ws, flag) ← assembleStep L i t ws flag
    assemble L rest ws flag

/-- Dutch::int_to_cardinal / Frisian::int_to_cardinal (lines 97-178),
on the exact integer value of its BigFloat argument. -/
def int_to_cardinal (L : LangData) (z : Int) : M String :=
  if z = 0 then .ok "nul"
  else do
    let words : List String := if z < 0 then ["minus"] else []
    let ws ← assemble L ((split_thousands z.natAbs).enum.reverse) words true
    .ok (String.join (space_words L ws))

/-! ### The BigFloat value model

num_bigfloat::BigFloat is an external arbitrary-precision decimal float.
Modelled from the spec: "Exact Decimal (external): arbitrary-precision
signed decimal value supporting integer/fractional split, modulo,
division, multiplication by small integers, sign test, zero test,
positive/negative-infinity test, and conversion to fixed-width integers
when the magnitude fits."  A finite value is a sign, an integer part and
the list of decimal fraction digits; infinities carry a sign.  NaN never
reaches the embedded code paths and is omitted. -/
inductive BigF
  | fin (neg : Bool) (ip : Nat) (fd : List Nat)
  | inf (neg : Bool)
  deriving DecidableEq, Repr

namespace BigF

/-- Whether a fraction-digit list denotes the value zero. -/
def fdZero (fd : List Nat) : Bool := fd.all (· == 0)

def is_zero : BigF → Bool
  | fin _ ip fd => ip == 0 && fdZero fd
  | inf _ => false

def is_negative : BigF → Bool
  | fin neg _ _ => neg
  | inf neg => neg

def is_inf_pos : BigF → Bool
  | inf false => true
  | _ => false

def is_inf_neg : BigF → Bool
  | inf true => true
  | _ => false

def is_inf : BigF → Bool
  | inf _ => true
  | _ => false

/-- Integer-part truncation, sign preserved. -/
def int : BigF → BigF
  | fin neg ip _ => fin neg ip []
  | inf neg => inf neg

/-- Fractional part, sign preserved. -/
def frac : BigF → BigF
  | fin neg _ fd => fin neg 0 fd
  | inf neg => inf neg

def inv_sign : BigF → BigF
  | fin neg ip fd => fin (!neg) ip fd
  | inf neg => inf (!neg)

/-- Exact decimal multiplication by 10 (one digit shift). -/
def mul10 : BigF → BigF
  | fin neg ip fd => fin neg (10 * ip + fd.headD 0) fd.tail
  | inf neg => inf neg

/-- Exact decimal multiplication by 100 (two digit shift). -/
def mul100 : BigF → BigF
  | fin neg ip fd => fin neg (100 * ip + 10 * fd.headD 0 + (fd.tail).headD 0) (fd.tail).tail
  | inf neg => inf neg

/-- Exact decimal division by 100 (two digit shift into the fraction). -/
def div100 : BigF → BigF
  | fin neg ip fd => fin neg (ip / 100) (ip / 10 % 10 :: ip % 10 :: fd)
  | inf neg => inf neg

/-- Remainder modulo 100; as in Rust, the result keeps the sign of the
dividend.  Only applied to integer-valued operands by the sources. -/
def mod100 : BigF → BigF
  | fin neg ip fd => fin neg (ip % 100) fd
  | inf neg => inf neg

/-- Modelled from the spec: conversion to a fixed-width unsigned integer
succeeds exactly when the truncated value fits, so negative values (and
infinities) do not convert and unwrap panics on them. -/
def to_u64 : BigF → Option Nat
  | fin neg ip _ => if neg ∧ ip ≠ 0 then none else if ip < 2 ^ 64 then some ip else none
  | inf _ => none

/-- Modelled from the spec, like to_u64: conversion to i64 succeeds
exactly when the truncated value fits the signed 64-bit range. -/
def to_i64 : BigF → Option Int
  | fin neg ip _ =>
    if neg then (if ip ≤ 2 ^ 63 then some (-(ip : Int)) else none)
    else (if ip < 2 ^ 63 then some (ip : Int) else none)
  | inf _ => none

def to_u128 : BigF → Option Nat
  | fin neg ip _ => if neg ∧ ip ≠ 0 then none else if ip < 2 ^ 128 then some ip else none
  | inf _ => none

/-- The exact integer value of an integer-valued finite BigFloat
(the form every caller hands to int_to_cardinal). -/
def toInt : BigF → Int
  | fin neg ip _ => if neg then -(ip : Int) else (ip : Int)
  | inf _ => 0

end BigF

/-! ### float_to_cardinal and to_cardinal -/

/-- Fractional-digit loop of float_to_cardinal (lines 194-202): while the
remaining fractional part is nonzero, shift out the leading digit with
`(part * 10).int().to_u64().unwrap()` and push a separator and the
digit's word. -/
def fracLoop (L : LangData) (neg : Bool) : List Nat → M (List String)
  | [] => .ok []
  | d :: rest =>
    if BigF.fdZero (d :: rest) then .ok []
    else do
      let digit ← unwrapN (BigF.to_u64 (BigF.int (BigF.mul10 (BigF.fin neg 0 (d :: rest)))))
      let w ← match digit with
        | 0 => (.ok "nul" : M String)
        | i => idx L.units (i - 1)
      let ws ← fracLoop L neg rest
      .ok ([" ", w] ++ ws)

/-- Dutch::float_to_cardinal / Frisian::float_to_cardinal (lines 181-207). -/
def float_to_cardinal (L : LangData) (v : BigF) : M String := do
  let integral_word ← int_to_cardinal L (BigF.toInt (BigF.int v))
  let kw : List String := if ¬(BigF.frac v).is_zero then ["komma"] else []
  let dws ← match BigF.frac v with
    | .fin neg _ fd => fracLoop L neg fd
    | .inf _ => .ok []
  let words := integral_word :: (kw ++ dws)
  .ok (String.join (space_words L words))

/-- Language::to_cardinal for Dutch / Frisian (lines 211-221). -/
def to_cardinal (L : LangData) (v : BigF) : M String :=
  if v.is_inf_pos then .ok L.infPos
  else if v.is_inf_neg then .ok L.infNeg
  else if (BigF.frac v).is_zero then int_to_cardinal L (BigF.toInt v)
  else float_to_cardinal L v

/-! ### to_ordinal -/

/-- Whitespace split of the cardinal string.  The cardinal strings of
these locales contain only single ASCII spaces, on which Rust's
split_whitespace agrees with splitting at each space and dropping empty
segments. -/
def wsplitGo : List Char → List Char → List String
  | [], acc => if acc.isEmpty then [] else [String.mk acc.reverse]
  | c :: rest, acc =>
    if c = ' ' then
      if acc.isEmpty then wsplitGo rest []
      else String.mk acc.reverse :: wsplitGo rest []
    else wsplitGo rest (c :: acc)

def split_whitespace (s : String) : List String := wsplitGo s.data []

/-- Rust str::split on a separator char: all segments, empty ones kept. -/
def csplitGo (sep : Char) : List Char → List Char → List String
  | [], acc => [String.mk acc.reverse]
  | c :: rest, acc =>
    if c = sep then String.mk acc.reverse :: csplitGo sep rest []
    else csplitGo sep rest (c :: acc)

def csplit (sep : Char) (s : String) : List String := csplitGo sep s.data []

def strContains (s : String) (c : Char) : Bool := s.data.contains c

def strEndsWith (s suf : String) : Bool := suf.data.isSuffixOf s.data

/-- Transformation of the final whitespace-delimited word in to_ordinal
(lines 234-273): split off an optional hyphen head, rewrite the
remainder through the closed lookup table, falling back to the
trigger-dependent default suffix. -/
def ordLast (L : LangData) (w : String) : String :=
  let ps : String × String :=
    if strContains w '-' then
      match csplit '-' w with
      | p₀ :: p₁ :: _ => (p₀ ++ "-", p₁)
      | _ => ("", w)
    else ("", w)
  let tail :=
    match L.ordTable.lookup ps.2 with
    | some t => t
    | none => if strEndsWith ps.2 L.ordTrigger then ps.2 ++ "ste" else ps.2 ++ "de"
  ps.1 ++ tail

/-- The while-let loop over the split words: every word except the last
is kept, the last is rewritten by ordLast. -/
def mapLast (L : LangData) : List String → List String
  | [] => []
  | [w] => [ordLast L w]
  | w :: rest => w :: mapLast L rest

def interc (sep : String) : List String → String
  | [] => ""
  | [x] => x
  | x :: xs => x ++ sep ++ interc sep xs

/-- Language::to_ordinal for Dutch / Frisian (lines 223-278). -/
def to_ordinal (L : LangData) (v : BigF) : M String := do
  let cardinal_word ← to_cardinal L v
  .ok (interc " " (mapLast L (split_whitespace cardinal_word)))

/-- Language::to_ordinal_num for Dutch / Frisian (lines 280-293): every
match arm of the suffix table returns "e". -/
def to_ordinal_num (L : LangData) (v : BigF) : M String := do
  let tail ← unwrapN (BigF.to_u64 (BigF.mod100 v))
  let _last := tail % 10
  let n ← unwrapN (BigF.to_u128 v)
  .ok (toString n ++ "e")

/-- Modelled from the spec: the register dispatcher (num2words.rs, not
under src/) validates the value before invoking the locale's
to_ordinal / to_ordinal_num: "Fails with NegativeOrdinal if the input is
negative, FloatingOrdinal if the fractional part is nonzero,
InfiniteOrdinal if infinite."  The checks are ordered so that the tests
in src (negative inputs give NegativeOrdinal, positive infinity gives
InfiniteOrdinal, finite non-integers give FloatingOrdinal) all hold:
sign first, then infinity, then fraction. -/
def ordinal_guard (v : BigF) : Option Num2Err :=
  if v.is_negative then some .NegativeOrdinal
  else if v.is_inf then some .InfiniteOrdinal
  else if ¬(BigF.frac v).is_zero then some .FloatingOrdinal
  else none

/-- Ordinal register: dispatcher guard, then the locale composer. -/
def ordinal (L : LangData) (v : BigF) : M String :=
  match ordinal_guard v with
  | some e => .error (.conv e)
  | none => to_ordinal L v

/-- Abbreviated-ordinal register: dispatcher guard, then the locale composer. -/
def ordinal_num (L : LangData) (v : BigF) : M String :=
  match ordinal_guard v with
  | some e => .error (.conv e)
  | none => to_ordinal_num L v

/-! ### to_year -/

/-- Language::to_year for Dutch / Frisian (lines 295-329).  The high
and low parts are narrowed with `(num / 100).to_i64().unwrap()` and
`(num % 100).to_i64().unwrap()`, so a year whose century part exceeds
the i64 range panics. -/
def to_year (L : LangData) (v : BigF) : M String :=
  if ¬(BigF.frac v).is_zero then .error (.conv .FloatingYear)
  else
    let p : BigF × String := if v.is_negative then (v.inv_sign, L.bcSuffix) else (v, "")
    do
      let high ← unwrapZ (BigF.to_i64 (BigF.div100 p.1))
      let low ← unwrapZ (BigF.to_i64 (BigF.mod100 p.1))
      let year_word ←
        if high = 0 ∨ (high % 10 = 0 ∧ low < 10) ∨ high ≥ 100 then
          int_to_cardinal L p.1.toInt
        else do
          let high_word ← int_to_cardinal L high
          let low_word ← if low = 0 then (.ok L.hundred : M String)
            else int_to_cardinal L low
          (.ok (high_word ++ low_word) : M String)
      .ok (year_word ++ p.2)

/-! ### to_currency -/

/-- Modelled from the spec: the Currency argument (crate root, not under
src/) contributes only "major-unit name" and "minor-unit name template"
strings; currency.default_string and currency.default_subunit_string
resolve to them. -/
structure Currency where
  majorName : String
  minorName : String

def currencies (c : Currency) : String := c.majorName

def cents (c : Currency) : String := c.minorName

/-- Language::to_currency for Dutch / Frisian (lines 331-363).  The
recursive call to_currency(integral_part) always lands in the
zero-fraction branch (the integral part is finite with zero fraction),
so it is inlined here to keep the recursion structural. -/
def to_currency (L : LangData) (c : Currency) (v : BigF) : M String :=
  if v.is_inf then
    .ok ((if v.is_negative then "minus " else "") ++ L.infPos ++ " " ++ currencies c)
  else if (BigF.frac v).is_zero then do
    let words ← int_to_cardinal L (BigF.toInt v)
    .ok (words ++ " " ++ currencies c)
  else
    let integral_part := BigF.int v
    let cents_nb := BigF.mod100 (BigF.int (BigF.mul100 v))
    do
      let cents_words ← int_to_cardinal L cents_nb.toInt
      let cents_suffix := cents c
      let integral_word ← do
        let words ← int_to_cardinal L (BigF.toInt integral_part)
        (.ok (words ++ " " ++ currencies c) : M String)
      if cents_nb.is_zero then .ok integral_word
      else if integral_part.is_zero then .ok (cents_words ++ " " ++ cents_suffix)
      else .ok (integral_word ++ " en " ++ cents_words ++ " " ++ cents_suffix)

/-! ### Claim-side description of the spacing pass

space_one / spaceAll restate the spec's description of the pass (one
separator after each negative-sign token, one before each decimal-marker
token, one before each scale word except the smallest, one after each
scale word that is not the last token); the theorems below compare them
with the loop above. -/

def space_one (L : LangData) (w : String) (isLast : Bool) : List String :=
  if w = "minus" then [w, " "]
  else if w = "komma" then [" ", w]
  else if w ∈ L.megas then
    (if w ≠ L.thousandLit then [" "] else []) ++ [w] ++ (if isLast then [] else [" "])
  else [w]

def spaceAll (L : LangData) : List String → List String
  | [] => []
  | w :: rest => space_one L w rest.isEmpty ++ spaceAll L rest

theorem space_one_ne_nil (L : LangData) (w : String) (b : Bool) :
    space_one L w b ≠ [] := by
  unfold space_one
  split_ifs <;> simp

theorem insertIdx_append_cons {α : Type} (l t : List α) (a : α) :
    (l ++ t).insertIdx l.length a = l ++ a :: t := by
  induction l with
  | nil => simp [List.insertIdx_zero]
  | cons x l ih => simpa [List.insertIdx_succ_cons] using ih

theorem get?_append_cons {α : Type} (l t : List α) (a : α) :
    (l ++ a :: t).get? l.length = some a := by
  induction l with
  | nil => rfl
  | cons x l ih => simpa using ih

theorem space_step_eq_act (L : LangData) {words : List String} {x : Nat} {w : String}
    (h : words.get? x = some w) : space_step L words x = spaceAct L words x w := by
  unfold space_step
  rw [h]

theorem insertIdx_succ_append {α : Type} (l r : List α) (w a : α) :
    (l ++ w :: r).insertIdx (l.length + 1) a = l ++ w :: a :: r := by
  have e : l ++ w :: r = (l ++ [w]) ++ r := by simp
  rw [e, show l.length + 1 = (l ++ [w]).length by simp, insertIdx_append_cons]
  simp

theorem space_step_spec (L : LangData) (l t : List String) (w : String) :
    space_step L (l ++ w :: t) l.length = l ++ space_one L w t.isEmpty ++ t := by
  rw [space_step_eq_act L (get?_append_cons l t w)]
  unfold spaceAct space_one
  by_cases h1 : w = "minus"
  · rw [if_pos h1, if_pos h1, insertIdx_succ_append]
    simp
  · rw [if_neg h1, if_neg h1]
    by_cases h2 : w = "komma"
    · rw [if_pos h2, if_pos h2, insertIdx_append_cons]
      simp
    · rw [if_neg h2, if_neg h2]
      by_cases h3 : w ∈ L.megas
      · rw [if_pos h3, if_pos h3]
        cases t with
        | nil =>
          have hc : ¬ l.length ≠ (l ++ w :: ([] : List String)).length - 1 := by
            simp
          simp only [if_neg hc]
          by_cases h4 : w ≠ L.thousandLit
          · rw [if_pos h4, if_pos h4, insertIdx_append_cons]
            simp
          · rw [if_neg h4, if_neg h4]
            simp
        | cons a t' =>
          have hc : l.length ≠ (l ++ w :: a :: t').length - 1 := by
            simp only [List.length_append, List.length_cons]
            omega
          simp only [if_pos hc, insertIdx_succ_append]
          by_cases h4 : w ≠ L.thousandLit
          · rw [if_pos h4, if_pos h4, insertIdx_append_cons]
            simp
          · rw [if_neg h4, if_neg h4]
            simp
      · rw [if_neg h3, if_neg h3]
        simp

theorem space_go_spec (L : LangData) :
    ∀ l r, r ≠ [] →
      space_go L (l ++ r) l.length = (l.map (fun w => space_one L w false)).flatten ++ r := by
  intro l
  induction l using List.reverseRecOn with
  | nil => intro r _; rfl
  | append_singleton l w ih =>
    intro r hr
    have e1 : (l ++ [w]) ++ r = l ++ w :: r := by simp
    have e2 : (l ++ [w]).length = l.length + 1 := by simp
    rw [e1, e2]
    show space_go L (space_step L (l ++ w :: r) l.length) l.length = _
    rw [space_step_spec]
    have hre : r.isEmpty = false := by cases r <;> simp_all
    rw [hre]
    have : l ++ space_one L w false ++ r = l ++ (space_one L w false ++ r) := by simp
    rw [this, ih _ (by simp [space_one_ne_nil])]
    simp

theorem spaceAll_append_one (L : LangData) (l : List String) (w : String) :
    spaceAll L (l ++ [w]) =
      (l.map (fun x => space_one L x false)).flatten ++ space_one L w true := by
  induction l with
  | nil => simp [spaceAll]
  | cons x l ih =>
    simp only [List.cons_append, spaceAll, ih, List.append_eq]
    have hne : (l ++ [w] : List String).isEmpty = false := by cases l <;> simp
    rw [hne]
    simp

theorem space_words_eq_spaceAll (L : LangData) (ws : List String) :
    space_words L ws = spaceAll L ws := by
  induction ws using List.reverseRecOn with
  | nil => rfl
  | append_singleton l w _ =>
    unfold space_words
    have e2 : (l ++ [w]).length = l.length + 1 := by simp
    rw [e2]
    show space_go L (space_step L (l ++ w :: []) l.length) l.length = _
    rw [space_step_spec]
    have : l ++ space_one L w ([] : List String).isEmpty ++ [] =
        l ++ space_one L w true := by simp
    rw [this, space_go_spec L l _ (space_one_ne_nil L w true),
      spaceAll_append_one]

theorem space_one_filter (L : LangData) (w : String) (b : Bool) (h : w ≠ " ") :
    (space_one L w b).filter (fun x => x ≠ " ") = [w] := by
  unfold space_one
  split_ifs <;> simp_all <;> cases b <;> simp

theorem spaceAll_filter (L : LangData) :
    ∀ ws : List String, " " ∉ ws →
      (spaceAll L ws).filter (fun x => x ≠ " ") = ws := by
  intro ws
  induction ws with
  | nil => intro _; rfl
  | cons w rest ih =>
    intro h
    have hw : w ≠ " " := fun e => h (e ▸ List.mem_cons_self w rest)
    have hr : " " ∉ rest := fun e => h (List.mem_cons_of_mem _ e)
    simp only [spaceAll, List.filter_append, space_one_filter L w _ hw, ih hr]
    rfl

theorem spaceAll_minus (L : LangData) (ws : List String) :
    spaceAll L ("minus" :: ws) = "minus" :: " " :: spaceAll L ws := by
  cases ws <;> simp [spaceAll, space_one]

/-! ### Shape facts about the word tables and the triplet loop -/

/-- The table shape shared by both locale files: 9 unit words, 9 tens
words, 10 teen words, 21 scale words. -/
def LangData.WF (L : LangData) : Prop :=
  L.units.length = 9 ∧ L.tens.length = 9 ∧ L.teens.length = 10 ∧ L.megas.length = 21

theorem Dutch_WF : Dutch.WF := ⟨rfl, rfl, rfl, rfl⟩

theorem Frisian_WF : Frisian.WF := ⟨rfl, rfl, rfl, rfl⟩

theorem idx_ok {l : List String} {i : Nat} (h : i < l.length) :
    idx l i = .ok (l.get ⟨i, h⟩) := by
  unfold idx
  rw [List.get?_eq_get h]

theorem hundredsWords_ok (L : LangData) (hu : L.units.length = 9)
    (hundreds : Nat) (hh : hundreds < 10) (ws : List String) :
    ∃ ws', hundredsWords L hundreds ws = .ok ws' := by
  unfold hundredsWords
  split_ifs with h1 h2
  · have hlt : hundreds - 1 < L.units.length := by omega
    rw [idx_ok hlt]
    exact ⟨_, rfl⟩
  · exact ⟨_, rfl⟩
  · exact ⟨_, rfl⟩

theorem tensUnitsWords_ok (L : LangData) (hu : L.units.length = 9)
    (hten : L.tens.length = 9) (hteen : L.teens.length = 10)
    (tens units : Nat) (ht : tens < 10) (hn : units < 10)
    (hne : tens ≠ 0 ∨ units ≠ 0) (ws : List String) :
    ∃ ws', tensUnitsWords L tens units ws = .ok ws' := by
  match tens, hne with
  | 0, hne =>
    have hun : units ≠ 0 := by
      rcases hne with h | h
      · exact absurd rfl h
      · exact h
    have hlt : units - 1 < L.units.length := by omega
    unfold tensUnitsWords
    rw [idx_ok hlt]
    exact ⟨_, rfl⟩
  | 1, _ =>
    have hlt : units < L.teens.length := by omega
    unfold tensUnitsWords
    rw [idx_ok hlt]
    exact ⟨_, rfl⟩
  | (t + 2), _ =>
    have hlt : t + 2 - 1 < L.tens.length := by omega
    unfold tensUnitsWords
    rw [idx_ok hlt]
    match units with
    | 0 => exact ⟨_, rfl⟩
    | u + 1 =>
      have hlt2 : u + 1 - 1 < L.units.length := by omega
      rw [ok_bind, idx_ok hlt2]
      exact ⟨_, rfl⟩

theorem megaPart_ok (L : LangData) (i t : Nat)
    (hg : i ≠ 0 → t ≠ 0 → i ≤ L.megas.length) (ws : List String) :
    ∃ ws', megaPart L i t ws = .ok ws' := by
  unfold megaPart
  split_ifs with h1 h2
  · exact absurd (hg h1.1 h1.2) (by omega)
  · have hlt : i - 1 < L.megas.length := by
      have := hg h1.1 h1.2
      omega
    rw [idx_ok hlt]
    exact ⟨_, rfl⟩
  · exact ⟨_, rfl⟩

theorem megaPart_err (L : LangData) (i t : Nat) (hi : i ≠ 0) (ht : t ≠ 0)
    (hgt : i > L.megas.length) (ws : List String) :
    megaPart L i t ws = .error (.conv .CannotConvert) := by
  unfold megaPart
  rw [if_pos ⟨hi, ht⟩, if_pos hgt]

theorem assembleStep_ok (L : LangData) (hWF : L.WF) (i t : Nat) (ht : t < 1000)
    (hg : i ≠ 0 → t ≠ 0 → i ≤ L.megas.length) (ws : List String) (flag : Bool) :
    ∃ p, assembleStep L i t ws flag = .ok p := by
  obtain ⟨hu, hten, hteen, hm⟩ := hWF
  unfold assembleStep
  dsimp only
  obtain ⟨ws1, h1⟩ := hundredsWords_ok L hu (t / 100 % 10) (by omega) ws
  rw [h1, ok_bind]
  by_cases hc : t / 10 % 10 ≠ 0 ∨ t % 10 ≠ 0
  · rw [if_pos hc]
    rcases hC : conjPart L i flag ws1 with ⟨wsC, flagC⟩
    dsimp only
    obtain ⟨ws2, h2⟩ := tensUnitsWords_ok L hu hten hteen (t / 10 % 10) (t % 10)
      (by omega) (by omega) hc wsC
    rw [h2, ok_bind, ok_bind]
    dsimp only
    obtain ⟨ws3, h3⟩ := megaPart_ok L i t hg ws2
    rw [h3, ok_bind]
    exact ⟨_, rfl⟩
  · rw [if_neg hc, ok_bind]
    dsimp only
    obtain ⟨ws3, h3⟩ := megaPart_ok L i t hg ws1
    rw [h3, ok_bind]
    exact ⟨_, rfl⟩

theorem assembleStep_err (L : LangData) (hWF : L.WF) (i t : Nat) (ht : t < 1000)
    (hi : i ≠ 0) (htz : t ≠ 0) (hgt : i > L.megas.length)
    (ws : List String) (flag : Bool) :
    assembleStep L i t ws flag = .error (.conv .CannotConvert) := by
  obtain ⟨hu, hten, hteen, hm⟩ := hWF
  unfold assembleStep
  dsimp only
  obtain ⟨ws1, h1⟩ := hundredsWords_ok L hu (t / 100 % 10) (by omega) ws
  rw [h1, ok_bind]
  by_cases hc : t / 10 % 10 ≠ 0 ∨ t % 10 ≠ 0
  · rw [if_pos hc]
    rcases hC : conjPart L i flag ws1 with ⟨wsC, flagC⟩
    dsimp only
    obtain ⟨ws2, h2⟩ := tensUnitsWords_ok L hu hten hteen (t / 10 % 10) (t % 10)
      (by omega) (by omega) hc wsC
    rw [h2, ok_bind, ok_bind]
    dsimp only
    rw [megaPart_err L i t hi htz hgt, error_bind]
  · rw [if_neg hc, ok_bind]
    dsimp only
    rw [megaPart_err L i t hi htz hgt, error_bind]

theorem assemble_ok (L : LangData) (hWF : L.WF) :
    ∀ (l : List (Nat × Nat)) (ws : List String) (flag : Bool),
      (∀ p ∈ l, p.2 < 1000) →
      (∀ p ∈ l, p.1 ≠ 0 → p.2 ≠ 0 → p.1 ≤ L.megas.length) →
      ∃ ws', assemble L l ws flag = .ok ws' := by
  intro l
  induction l with
  | nil => exact fun ws flag _ _ => ⟨ws, rfl⟩
  | cons p rest ih =>
    intro ws flag hlt hguard
    obtain ⟨i, t⟩ := p
    obtain ⟨⟨ws1, flag1⟩, h1⟩ := assembleStep_ok L hWF i t
      (hlt (i, t) (List.mem_cons_self _ _))
      (hguard (i, t) (List.mem_cons_self _ _)) ws flag
    obtain ⟨ws', h'⟩ := ih ws1 flag1
      (fun q hq => hlt q (List.mem_cons_of_mem _ hq))
      (fun q hq => hguard q (List.mem_cons_of_mem _ hq))
    refine ⟨ws', ?_⟩
    show (assembleStep L i t ws flag >>= fun p => assemble L rest p.1 p.2) = _
    rw [h1, ok_bind]
    exact h'

theorem assemble_err (L : LangData) (hWF : L.WF) (i t : Nat)
    (rest : List (Nat × Nat)) (ws : List String) (flag : Bool)
    (ht : t < 1000) (hi : i ≠ 0) (htz : t ≠ 0) (hgt : i > L.megas.length) :
    assemble L ((i, t) :: rest) ws flag = .error (.conv .CannotConvert) := by
  show (assembleStep L i t ws flag >>= fun p => assemble L rest p.1 p.2) = _
  rw [assembleStep_err L hWF i t ht hi htz hgt, error_bind]

/-! ### Facts about split_thousands -/

theorem split_thousands_lt (n : Nat) : ∀ g ∈ split_thousands n, g < 1000 := by
  induction n using Nat.strong_induction_on with
  | _ n ih =>
    intro g hg
    rw [split_thousands_eq] at hg
    by_cases hn : n = 0
    · rw [if_pos hn] at hg
      exact absurd hg (List.not_mem_nil g)
    · rw [if_neg hn] at hg
      rcases List.mem_cons.mp hg with h | h
      · rw [h]
        exact Nat.mod_lt n (by omega)
      · exact ih (n / 1000) (Nat.div_lt_self (by omega) (by omega)) g h

theorem split_thousands_get? (n : Nat) : ∀ i,
    (split_thousands n).get? i =
      if n / 1000 ^ i = 0 then none else some (n / 1000 ^ i % 1000) := by
  induction n using Nat.strong_induction_on with
  | _ n ih =>
    intro i
    rw [split_thousands_eq]
    by_cases hn : n = 0
    · subst hn
      simp
    · rw [if_neg hn]
      match i with
      | 0 => simp [hn]
      | i + 1 =>
        show (split_thousands (n / 1000)).get? i = _
        rw [ih (n / 1000) (Nat.div_lt_self (by omega) (by omega)) i]
        have e : n / 1000 / 1000 ^ i = n / 1000 ^ (i + 1) := by
          rw [Nat.div_div_eq_div_mul, pow_succ, mul_comm (1000 ^ i) 1000]
        rw [e]

theorem split_thousands_length_le (n i : Nat) (h : n / 1000 ^ i = 0) :
    (split_thousands n).length ≤ i := by
  by_contra hlt
  push_neg at hlt
  have := split_thousands_get? n i
  rw [if_pos h] at this
  rw [List.get?_eq_get hlt] at this
  exact Option.noConfusion this

theorem split_thousands_length_gt (n i : Nat) (h : n / 1000 ^ i ≠ 0) :
    i < (split_thousands n).length := by
  by_contra hle
  push_neg at hle
  have := split_thousands_get? n i
  rw [if_neg h, List.get?_eq_none.mpr hle] at this
  exact Option.noConfusion this

theorem enumFrom_append_one {α : Type} (l : List α) (g : α) (k : Nat) :
    List.enumFrom k (l ++ [g]) = List.enumFrom k l ++ [(k + l.length, g)] := by
  induction l generalizing k with
  | nil => simp [List.enumFrom]
  | cons a l ih =>
    simp only [List.cons_append, List.enumFrom, List.length_cons, List.append_eq]
    rw [ih (k + 1)]
    have e : k + 1 + l.length = k + (l.length + 1) := by omega
    rw [e]

theorem enum_append_one {α : Type} (l : List α) (g : α) :
    (l ++ [g]).enum = l.enum ++ [(l.length, g)] := by
  show List.enumFrom 0 (l ++ [g]) = List.enumFrom 0 l ++ [(l.length, g)]
  rw [enumFrom_append_one]
  norm_num

theorem mem_enumRev_group {n : Nat} {p : Nat × Nat}
    (hp : p ∈ (split_thousands n).enum.reverse) :
    p.2 = n / 1000 ^ p.1 % 1000 ∧ n / 1000 ^ p.1 ≠ 0 := by
  rw [List.mem_reverse] at hp
  have hg := List.mem_enum_iff_get?.mp hp
  rw [split_thousands_get? n p.1] at hg
  by_cases h : n / 1000 ^ p.1 = 0
  · rw [if_pos h] at hg
    exact Option.noConfusion hg
  · rw [if_neg h] at hg
    exact ⟨(Option.some_inj.mp hg).symm, h⟩

/-- The head of the reversed enumeration is the most significant group. -/
theorem enumRev_head (n : Nat) (hn : n ≠ 0) :
    ∃ rest, (split_thousands n).enum.reverse =
      ((split_thousands n).length - 1,
        n / 1000 ^ ((split_thousands n).length - 1) % 1000) :: rest := by
  have hne : split_thousands n ≠ [] := by
    rw [split_thousands_eq, if_neg hn]
    exact List.cons_ne_nil _ _
  obtain ⟨l', g, hdec⟩ : ∃ l' g, split_thousands n = l' ++ [g] :=
    ⟨(split_thousands n).dropLast, (split_thousands n).getLast hne,
      (List.dropLast_append_getLast hne).symm⟩
  refine ⟨(l'.enum).reverse, ?_⟩
  have hlen : (split_thousands n).length = l'.length + 1 := by
    rw [hdec]; simp
  have hget : (split_thousands n).get? l'.length = some g := by
    rw [hdec]; exact get?_append_cons l' [] g
  rw [split_thousands_get? n l'.length] at hget
  by_cases h0 : n / 1000 ^ l'.length = 0
  · rw [if_pos h0] at hget
    exact Option.noConfusion hget
  · rw [if_neg h0] at hget
    have hgv : g = n / 1000 ^ l'.length % 1000 := (Option.some_inj.mp hget).symm
    rw [hdec, enum_append_one, List.reverse_append]
    have hlen2 : (l' ++ [g]).length - 1 = l'.length := by simp
    rw [hlen2, hgv]
    rfl

/-- A most-significant group that is nonzero (always the case for the
last pushed group of split_thousands). -/
theorem top_group_ne_zero (n : Nat) (hn : n ≠ 0) :
    n / 1000 ^ ((split_thousands n).length - 1) % 1000 ≠ 0 := by
  have hne : split_thousands n ≠ [] := by
    rw [split_thousands_eq, if_neg hn]
    exact List.cons_ne_nil _ _
  have hlen0 : 0 < (split_thousands n).length := List.length_pos.mpr hne
  have htop : n / 1000 ^ ((split_thousands n).length - 1) ≠ 0 := by
    intro h
    have := split_thousands_length_le n ((split_thousands n).length - 1) h
    omega
  have hnext : n / 1000 ^ (split_thousands n).length = 0 := by
    by_contra h
    have := split_thousands_length_gt n (split_thousands n).length h
    omega
  have e : (split_thousands n).length - 1 + 1 = (split_thousands n).length := by omega
  have h2 : n / 1000 ^ ((split_thousands n).length - 1) / 1000 = 0 := by
    rw [Nat.div_div_eq_div_mul, ← pow_succ, e]
    exact hnext
  have hlt : n / 1000 ^ ((split_thousands n).length - 1) < 1000 := by omega
  rw [Nat.mod_eq_of_lt hlt]
  exact htop

/-- For every non-negative integer, int_to_cardinal either succeeds or
returns CannotConvert; it never panics, and which of the two happens is
decided by whether some group beyond the scale table is nonzero. -/
theorem int_to_cardinal_dichotomy (L : LangData) (hWF : L.WF) (n : Nat) :
    ((∀ i, L.megas.length < i → n / 1000 ^ i % 1000 = 0) →
      ∃ s, int_to_cardinal L (n : Int) = .ok s) ∧
    ((∃ i, L.megas.length < i ∧ n / 1000 ^ i % 1000 ≠ 0) →
      int_to_cardinal L (n : Int) = .error (.conv .CannotConvert)) := by
  constructor
  · intro hall
    by_cases hn : n = 0
    · subst hn
      exact ⟨"nul", rfl⟩
    · have hz : (n : Int) ≠ 0 := by exact_mod_cast hn
      unfold int_to_cardinal
      rw [if_neg hz]
      have hneg : ¬ ((n : Int) < 0) := by omega
      rw [if_neg hneg]
      have habs : (n : Int).natAbs = n := Int.natAbs_ofNat n
      rw [habs]
      dsimp only
      obtain ⟨ws', h'⟩ := assemble_ok L hWF ((split_thousands n).enum.reverse) [] true
        (by
          intro p hp
          have := (mem_enumRev_group hp).1
          rw [this]
          exact Nat.mod_lt _ (by omega))
        (by
          intro p hp h1 h2
          by_contra hgt
          push_neg at hgt
          have := (mem_enumRev_group hp).1
          rw [hall p.1 hgt] at this
          exact h2 this)
      rw [h', ok_bind]
      exact ⟨_, rfl⟩
  · rintro ⟨i, hgt, hne⟩
    have hn : n ≠ 0 := by
      intro h
      subst h
      simp at hne
    have hz : (n : Int) ≠ 0 := by exact_mod_cast hn
    unfold int_to_cardinal
    rw [if_neg hz]
    have hneg : ¬ ((n : Int) < 0) := by omega
    rw [if_neg hneg]
    rw [Int.natAbs_ofNat]
    dsimp only
    have hilen : i < (split_thousands n).length :=
      split_thousands_length_gt n i (by
        intro h
        rw [h] at hne
        simp at hne)
    obtain ⟨rest, hrest⟩ := enumRev_head n hn
    rw [hrest]
    have htoplt : (split_thousands n).length - 1 > L.megas.length := by omega
    rw [assemble_err L hWF _ _ rest [] true
      (Nat.mod_lt _ (by omega))
      (by omega)
      (top_group_ne_zero n hn)
      htoplt]
    rfl
/-! ### Unshifting the negative-sign token commutes with assembly -/

@[simp] theorem map_ok {α β : Type} (f : α → β) (a : α) :
    Except.map (ε := RunErr) f (.ok a) = .ok (f a) := rfl

@[simp] theorem map_error {α β : Type} (f : α → β) (e : RunErr) :
    Except.map (ε := RunErr) f (.error e : M α) = .error e := rfl

theorem hundredsWords_extends (L : LangData) (h : Nat) (ws ws1 : List String)
    (hok : hundredsWords L h ws = .ok ws1) : ∃ δ, ws1 = ws ++ δ := by
  unfold hundredsWords at hok
  split_ifs at hok
  · cases hx : idx L.units (h - 1) with
    | error e =>
      simp only [hx, error_bind] at hok
      exact Except.noConfusion hok
    | ok u =>
      simp only [hx, ok_bind, Except.ok.injEq] at hok
      refine ⟨[u, L.hundred], ?_⟩
      rw [← hok]
      simp
  · cases hok
    exact ⟨[L.hundred], rfl⟩
  · cases hok
    exact ⟨[], by simp⟩

theorem conjPart_extends (L : LangData) (i : Nat) (flag : Bool) (ws : List String) :
    ∃ δ, (conjPart L i flag ws).1 = ws ++ δ := by
  unfold conjPart
  split_ifs
  · cases hl : ws.getLast? with
    | none => exact ⟨[], by simp⟩
    | some last =>
      dsimp only
      split_ifs
      · exact ⟨[], by simp⟩
      · exact ⟨["ën"], rfl⟩
      · exact ⟨["en"], rfl⟩
  · exact ⟨[], by simp⟩

theorem tensUnitsWords_single (L : LangData) (tens units : Nat) (ws ws1 : List String)
    (hok : tensUnitsWords L tens units ws = .ok ws1) : ∃ w, ws1 = ws ++ [w] := by
  unfold tensUnitsWords at hok
  match tens, hok with
  | 0, hok =>
    cases hx : idx L.units (units - 1) with
    | error e =>
      simp only [hx, error_bind] at hok
      exact Except.noConfusion hok
    | ok u =>
      simp only [hx, ok_bind, Except.ok.injEq] at hok
      exact ⟨u, hok.symm⟩
  | 1, hok =>
    cases hx : idx L.teens units with
    | error e =>
      simp only [hx, error_bind] at hok
      exact Except.noConfusion hok
    | ok u =>
      simp only [hx, ok_bind, Except.ok.injEq] at hok
      exact ⟨u, hok.symm⟩
  | t + 2, hok =>
    cases hx : idx L.tens (t + 2 - 1) with
    | error e =>
      simp only [hx, error_bind] at hok
      exact Except.noConfusion hok
    | ok ten =>
      simp only [hx, ok_bind] at hok
      match units, hok with
      | 0, hok =>
        simp only [Except.ok.injEq] at hok
        exact ⟨ten, hok.symm⟩
      | u + 1, hok =>
        cases hx2 : idx L.units (u + 1 - 1) with
        | error e =>
          simp only [hx2, error_bind] at hok
          exact Except.noConfusion hok
        | ok uw =>
          simp only [hx2, ok_bind, Except.ok.injEq] at hok
          exact ⟨_, hok.symm⟩

theorem megaPart_extends (L : LangData) (i t : Nat) (ws ws1 : List String)
    (hok : megaPart L i t ws = .ok ws1) : ∃ δ, ws1 = ws ++ δ := by
  unfold megaPart at hok
  by_cases h1 : i ≠ 0 ∧ t ≠ 0
  · rw [if_pos h1] at hok
    by_cases h2 : i > L.megas.length
    · rw [if_pos h2] at hok
      exact Except.noConfusion hok
    · rw [if_neg h2] at hok
      cases hx : idx L.megas (i - 1) with
      | error e =>
        simp only [hx, error_bind] at hok
        exact Except.noConfusion hok
      | ok m =>
        simp only [hx, ok_bind, Except.ok.injEq] at hok
        exact ⟨[m], hok.symm⟩
  · rw [if_neg h1] at hok
    cases hok
    exact ⟨[], by simp⟩

theorem hundredsWords_minus (L : LangData) (h : Nat) (ws : List String) :
    hundredsWords L h ("minus" :: ws) =
      Except.map (List.cons "minus") (hundredsWords L h ws) := by
  unfold hundredsWords
  split_ifs
  · cases hx : idx L.units (h - 1) with
    | error e => simp [hx]
    | ok u => simp [hx]
  · simp
  · simp

theorem conjPart_minus (L : LangData) (i : Nat) (flag : Bool) (ws : List String)
    (hne : flag = false → ws ≠ []) :
    conjPart L i flag ("minus" :: ws) =
      (("minus" :: (conjPart L i flag ws).1), (conjPart L i flag ws).2) := by
  unfold conjPart
  by_cases hcond : i = 0 ∧ flag = false
  · rw [if_pos hcond, if_pos hcond]
    have hws : ws ≠ [] := hne hcond.2
    match ws, hws with
    | a :: t, _ =>
      rw [List.getLast?_cons_cons]
      cases hl : (a :: t).getLast? with
      | none => simp
      | some last =>
        dsimp only
        split_ifs <;> simp
  · rw [if_neg hcond, if_neg hcond]

theorem tensUnitsWords_minus (L : LangData) (tens units : Nat) (ws : List String) :
    tensUnitsWords L tens units ("minus" :: ws) =
      Except.map (List.cons "minus") (tensUnitsWords L tens units ws) := by
  unfold tensUnitsWords
  match tens with
  | 0 =>
    cases hx : idx L.units (units - 1) with
    | error e => simp [hx]
    | ok u => simp [hx]
  | 1 =>
    cases hx : idx L.teens units with
    | error e => simp [hx]
    | ok u => simp [hx]
  | t + 2 =>
    cases hx : idx L.tens (t + 2 - 1) with
    | error e => simp [hx]
    | ok ten =>
      simp only [hx, ok_bind]
      match units with
      | 0 => simp
      | u + 1 =>
        cases hx2 : idx L.units (u + 1 - 1) with
        | error e => simp [hx2]
        | ok uw => simp [hx2]

theorem megaPart_minus (L : LangData) (i t : Nat) (ws : List String) :
    megaPart L i t ("minus" :: ws) =
      Except.map (List.cons "minus") (megaPart L i t ws) := by
  unfold megaPart
  by_cases h1 : i ≠ 0 ∧ t ≠ 0
  · rw [if_pos h1, if_pos h1]
    by_cases h2 : i > L.megas.length
    · rw [if_pos h2, if_pos h2]
      rfl
    · rw [if_neg h2, if_neg h2]
      cases hx : idx L.megas (i - 1) with
      | error e => simp [hx]
      | ok m => simp [hx]
  · rw [if_neg h1, if_neg h1]
    rfl

theorem assembleStep_minus (L : LangData) (i t : Nat) (ws : List String) (flag : Bool)
    (hne : flag = false → ws ≠ []) :
    assembleStep L i t ("minus" :: ws) flag =
      Except.map (fun p => ("minus" :: p.1, p.2)) (assembleStep L i t ws flag) := by
  unfold assembleStep
  dsimp only
  rw [hundredsWords_minus]
  cases h1 : hundredsWords L (t / 100 % 10) ws with
  | error e => rfl
  | ok ws1 =>
    have hne1 : flag = false → ws1 ≠ [] := by
      intro hf
      obtain ⟨δ, hδ⟩ := hundredsWords_extends L _ ws ws1 h1
      subst hδ
      exact fun hcon => (hne hf) (List.append_eq_nil.mp hcon).1
    simp only [map_ok, ok_bind]
    by_cases hc : t / 10 % 10 ≠ 0 ∨ t % 10 ≠ 0
    · simp only [if_pos hc]
      rw [conjPart_minus L i flag ws1 hne1]
      rw [tensUnitsWords_minus]
      cases h2 : tensUnitsWords L (t / 10 % 10) (t % 10) (conjPart L i flag ws1).1 with
      | error e => rfl
      | ok ws2 =>
        simp only [map_ok, ok_bind]
        rw [megaPart_minus]
        cases h3 : megaPart L i t ws2 with
        | error e => rfl
        | ok ws3 => simp only [map_ok, ok_bind]
    · simp only [if_neg hc, ok_bind]
      rw [megaPart_minus]
      cases h3 : megaPart L i t ws1 with
      | error e => rfl
      | ok ws3 => simp only [map_ok, ok_bind]

theorem assembleStep_inv (L : LangData) (i t : Nat) (ws : List String) (flag : Bool)
    (ws1 : List String) (flag1 : Bool) (hne : flag = false → ws ≠ [])
    (hok : assembleStep L i t ws flag = .ok (ws1, flag1)) :
    flag1 = false → ws1 ≠ [] := by
  unfold assembleStep at hok
  dsimp only at hok
  cases h1 : hundredsWords L (t / 100 % 10) ws with
  | error e =>
    simp only [h1, error_bind] at hok
    exact Except.noConfusion hok
  | ok wsA =>
    simp only [h1, ok_bind] at hok
    have hneA : flag = false → wsA ≠ [] := by
      intro hf
      obtain ⟨δ, hδ⟩ := hundredsWords_extends L _ ws wsA h1
      subst hδ
      exact fun hcon => (hne hf) (List.append_eq_nil.mp hcon).1
    by_cases hc : t / 10 % 10 ≠ 0 ∨ t % 10 ≠ 0
    · rw [if_pos hc] at hok
      rcases hC : conjPart L i flag wsA with ⟨wsC, flagC⟩
      rw [hC] at hok
      dsimp only at hok
      cases h2 : tensUnitsWords L (t / 10 % 10) (t % 10) wsC with
      | error e =>
        simp only [h2, error_bind] at hok
        exact Except.noConfusion hok
      | ok wsB =>
        simp only [h2, ok_bind] at hok
        cases h3 : megaPart L i t wsB with
        | error e =>
          simp only [h3, error_bind] at hok
          exact Except.noConfusion hok
        | ok wsD =>
          simp only [h3, ok_bind, Except.ok.injEq, Prod.mk.injEq] at hok
          intro _
          obtain ⟨w, hw⟩ := tensUnitsWords_single L _ _ wsC wsB h2
          obtain ⟨δ, hδ⟩ := megaPart_extends L i t wsB wsD h3
          rw [← hok.1, hδ, hw]
          simp
    · rw [if_neg hc] at hok
      cases h3 : megaPart L i t wsA with
      | error e =>
        simp only [h3, error_bind] at hok
        exact Except.noConfusion hok
      | ok wsD =>
        simp only [h3, ok_bind, Except.ok.injEq, Prod.mk.injEq] at hok
        intro hf
        obtain ⟨δ, hδ⟩ := megaPart_extends L i t wsA wsD h3
        rw [← hok.1, hδ]
        have := hneA (hok.2 ▸ hf)
        exact fun hcon => this (List.append_eq_nil.mp hcon).1

theorem assemble_minus (L : LangData) :
    ∀ (l : List (Nat × Nat)) (ws : List String) (flag : Bool),
      (flag = false → ws ≠ []) →
      assemble L l ("minus" :: ws) flag =
        Except.map (List.cons "minus") (assemble L l ws flag) := by
  intro l
  induction l with
  | nil => intro ws flag _; rfl
  | cons p rest ih =>
    intro ws flag hne
    obtain ⟨i, t⟩ := p
    show (assembleStep L i t ("minus" :: ws) flag >>= fun q => assemble L rest q.1 q.2) =
      Except.map (List.cons "minus")
        (assembleStep L i t ws flag >>= fun q => assemble L rest q.1 q.2)
    rw [assembleStep_minus L i t ws flag hne]
    cases hq : assembleStep L i t ws flag with
    | error e => rfl
    | ok q =>
      obtain ⟨ws1, flag1⟩ := q
      rw [map_ok, ok_bind, ok_bind]
      exact ih ws1 flag1 (assembleStep_inv L i t ws flag ws1 flag1 hne hq)

/-! ### Negation prefix behaviour of the cardinal pipeline -/

@[simp] theorem frac_fin (b : Bool) (ip : Nat) (fd : List Nat) :
    (BigF.fin b ip fd).frac = BigF.fin b 0 fd := rfl

@[simp] theorem int_fin (b : Bool) (ip : Nat) (fd : List Nat) :
    (BigF.fin b ip fd).int = BigF.fin b ip [] := rfl

@[simp] theorem is_inf_pos_fin (b : Bool) (ip : Nat) (fd : List Nat) :
    (BigF.fin b ip fd).is_inf_pos = false := rfl

@[simp] theorem is_inf_neg_fin (b : Bool) (ip : Nat) (fd : List Nat) :
    (BigF.fin b ip fd).is_inf_neg = false := rfl

@[simp] theorem is_inf_fin (b : Bool) (ip : Nat) (fd : List Nat) :
    (BigF.fin b ip fd).is_inf = false := rfl

@[simp] theorem is_zero_fin (b : Bool) (ip : Nat) (fd : List Nat) :
    (BigF.fin b ip fd).is_zero = (ip == 0 && BigF.fdZero fd) := rfl

@[simp] theorem is_negative_fin (b : Bool) (ip : Nat) (fd : List Nat) :
    (BigF.fin b ip fd).is_negative = b := rfl

@[simp] theorem toInt_fin (b : Bool) (ip : Nat) (fd : List Nat) :
    (BigF.fin b ip fd).toInt = if b then -(ip : Int) else (ip : Int) := rfl

theorem join_cons (a : String) (l : List String) :
    String.join (a :: l) = a ++ String.join l := by
  rw [String.join_eq, String.join_eq]
  cases a with
  | mk d => rfl

theorem int_to_cardinal_minus (L : LangData) (n : Nat) (hn : 0 < n) (s : String)
    (hok : int_to_cardinal L (n : Int) = .ok s) :
    int_to_cardinal L (-(n : Int)) = .ok ("minus " ++ s) := by
  have hz : (n : Int) ≠ 0 := by omega
  have hzn : (-(n : Int)) ≠ 0 := by omega
  have hneg : ¬ ((n : Int) < 0) := by omega
  have hnegn : (-(n : Int)) < 0 := by omega
  unfold int_to_cardinal at hok ⊢
  rw [if_neg hz, if_neg hneg, Int.natAbs_ofNat] at hok
  dsimp only at hok
  rw [if_neg hzn, if_pos hnegn]
  have habs : (-(n : Int)).natAbs = n := by
    rw [Int.natAbs_neg, Int.natAbs_ofNat]
  rw [habs]
  dsimp only
  rw [show ("minus" :: [] : List String) = "minus" :: ([] : List String) from rfl]
  rw [assemble_minus L ((split_thousands n).enum.reverse) [] true (by simp)]
  cases hres : assemble L ((split_thousands n).enum.reverse) [] true with
  | error e =>
    rw [hres, error_bind] at hok
    exact Except.noConfusion hok
  | ok ws' =>
    rw [hres, ok_bind] at hok
    rw [map_ok, ok_bind]
    have hs : String.join (space_words L ws') = s := by
      exact Except.ok.inj hok
    rw [space_words_eq_spaceAll, spaceAll_minus, join_cons, join_cons,
      ← String.append_assoc]
    rw [show ("minus" ++ " " : String) = "minus " from rfl]
    rw [← space_words_eq_spaceAll, hs]

/-! ### Claim theorems: spacing pass, negation, overflow, totality, year -/

theorem to_cardinal_fin_false (L : LangData) (n : Nat) :
    to_cardinal L (.fin false n []) = int_to_cardinal L (n : Int) := rfl

theorem to_cardinal_fin_true (L : LangData) (n : Nat) :
    to_cardinal L (.fin true n []) = int_to_cardinal L (-(n : Int)) := rfl

theorem spaceAll_filter_ge (L : LangData) :
    ∀ ws : List String,
      (spaceAll L ws).filter (fun x => x ≠ " ") = ws.filter (fun x => x ≠ " ") := by
  intro ws
  induction ws with
  | nil => rfl
  | cons w rest ih =>
    by_cases hw : w = " "
    · subst hw
      have h1 : (space_one L " " (rest.isEmpty)).filter (fun x => x ≠ " ") = [] := by
        unfold space_one
        split_ifs <;> simp
      simp only [spaceAll, List.filter_append, h1, ih]
      simp
    · simp only [spaceAll, List.filter_append, space_one_filter L w _ hw, ih]
      have : (List.filter (fun x => decide (x ≠ " ")) [w]) = [w] := by
        simp [hw]
      simp [hw]

/-- The spacing pass never removes, rewrites or reorders lexical tokens:
filtering the separators out of its output gives back the input (exactly,
when the input carries no separator tokens of its own), and the loop is
extensionally the per-token separator-insertion rule spaceAll. -/
theorem C9_spacing (L : LangData) (ws : List String) :
    (space_words L ws).filter (fun x => x ≠ " ") = ws.filter (fun x => x ≠ " ") ∧
    (" " ∉ ws → (space_words L ws).filter (fun x => x ≠ " ") = ws) ∧
    space_words L ws = spaceAll L ws := by
  refine ⟨?_, ?_, space_words_eq_spaceAll L ws⟩
  · rw [space_words_eq_spaceAll]
    exact spaceAll_filter_ge L ws
  · intro h
    rw [space_words_eq_spaceAll]
    exact spaceAll_filter L ws h

theorem C9_spacing_witness :
    (" " ∉ (["minus", "éénentwintig", "duizend"] : List String)) ∧
    (space_words Dutch ["minus", "éénentwintig", "duizend"]).filter
      (fun x => x ≠ " ") = ["minus", "éénentwintig", "duizend"] :=
  ⟨by decide, (C9_spacing Dutch ["minus", "éénentwintig", "duizend"]).2.1 (by decide)⟩

/-- The spacing pass applied to the token list of the fractional
pipeline, which already contains separator tokens: the non-separator
subsequence of the output is not the input list, refuting the claim's
universal form. -/
theorem C9_spacing_counterexample :
    (space_words Dutch ["nul", "komma", " ", "vijf"]).filter (fun x => x ≠ " ")
      ≠ ["nul", "komma", " ", "vijf"] := by decide

/-- Negating a positive integer input prefixes the cardinal with the
negative word and a separator. -/
theorem C4_negation_amended (L : LangData) (n : Nat) (s : String) (hn : 0 < n)
    (hok : to_cardinal L (.fin false n []) = .ok s) :
    to_cardinal L (.fin true n []) = .ok ("minus " ++ s) := by
  rw [to_cardinal_fin_true]
  rw [to_cardinal_fin_false] at hok
  exact int_to_cardinal_minus L n hn s hok

theorem C4_negation_witness :
    (0 < 10) ∧ to_cardinal Dutch (.fin true 10 []) = .ok ("minus " ++ "tien") :=
  ⟨by decide, C4_negation_amended Dutch 10 "tien" (by decide) rfl⟩

/-- The identity fails for fractional inputs: 0.5 converts successfully
but -0.5 panics in the fractional-digit extraction (the negative digit
value does not convert to u64), so cardinal(-0.5) is not the
minus-prefixed cardinal of 0.5. -/
theorem C4_negation_counterexample :
    to_cardinal Dutch (.fin false 0 [5]) = .ok "nul komma vijf" ∧
    to_cardinal Dutch (.fin true 0 [5]) = .error .panic :=
  ⟨rfl, rfl⟩

/-- The CannotConvert direction for arbitrary (also negative) integers:
the decomposition runs on the absolute value, and the guard fires on
the most significant group no matter what sign token was unshifted. -/
theorem int_to_cardinal_err_any (L : LangData) (hWF : L.WF) (z : Int)
    (h : ∃ i, L.megas.length < i ∧ z.natAbs / 1000 ^ i % 1000 ≠ 0) :
    int_to_cardinal L z = .error (.conv .CannotConvert) := by
  obtain ⟨i, hgt, hne⟩ := h
  have hn : z.natAbs ≠ 0 := by
    intro h0
    rw [h0] at hne
    simp at hne
  have hz : z ≠ 0 := fun h0 => hn (by rw [h0]; rfl)
  unfold int_to_cardinal
  rw [if_neg hz]
  dsimp only
  have hilen : i < (split_thousands z.natAbs).length :=
    split_thousands_length_gt z.natAbs i (by
      intro hdiv
      rw [hdiv] at hne
      simp at hne)
  obtain ⟨rest, hrest⟩ := enumRev_head z.natAbs hn
  rw [hrest]
  rw [assemble_err L hWF _ _ rest _ true
    (Nat.mod_lt _ (by omega))
    (by omega)
    (top_group_ne_zero z.natAbs hn)
    (by omega)]
  rfl

/-- Overflow behaviour of int_to_cardinal: for every integer (of either
sign) with a nonzero base-1000 group at an index beyond the scale
table, the result is the CannotConvert domain error, and every
non-negative integer whose groups all fit converts successfully. -/
theorem C5_overflow (L : LangData) (hWF : L.WF) :
    (∀ z : Int, (∃ i, L.megas.length < i ∧ z.natAbs / 1000 ^ i % 1000 ≠ 0) →
      int_to_cardinal L z = .error (.conv .CannotConvert)) ∧
    (∀ n : Nat, (∀ i, L.megas.length < i → n / 1000 ^ i % 1000 = 0) →
      ∃ s, int_to_cardinal L (n : Int) = .ok s) :=
  ⟨fun z h => int_to_cardinal_err_any L hWF z h,
   fun n h => (int_to_cardinal_dichotomy L hWF n).1 h⟩

set_option maxRecDepth 4000 in
theorem C5_overflow_witness :
    int_to_cardinal Dutch ((10 ^ 100 : Nat) : Int) = .error (.conv .CannotConvert) ∧
    int_to_cardinal Dutch (-(10 ^ 100 : Int)) = .error (.conv .CannotConvert) ∧
    ∃ s, int_to_cardinal Dutch ((81932 : Nat) : Int) = .ok s :=
  ⟨(C5_overflow Dutch Dutch_WF).1 ((10 ^ 100 : Nat) : Int) ⟨33, by decide, by decide⟩,
   (C5_overflow Dutch Dutch_WF).1 (-(10 ^ 100 : Int)) ⟨33, by decide, by decide⟩,
   (C5_overflow Dutch Dutch_WF).2 81932 (fun i hi => by
     have hm : Dutch.megas.length = 21 := rfl
     rw [hm] at hi
     have hlt : (81932 : Nat) < 1000 ^ i :=
       lt_of_lt_of_le (by decide : (81932 : Nat) < 1000 ^ 22)
         (Nat.pow_le_pow_right (by decide) (by omega))
     rw [Nat.div_eq_of_lt hlt])⟩

/-- Totality of the integer cardinal pipeline: every base-1000 group is
in [0, 999] (so the u64 conversion in split_thousands cannot fail), and
int_to_cardinal never panics on a non-negative integer: every result is
an ordinary value, Ok or Err(CannotConvert). -/
theorem C10_no_panic (L : LangData) (hWF : L.WF) (n : Nat) :
    (∀ g ∈ split_thousands n, g < 1000) ∧
    ∃ r, int_to_cardinal L (n : Int) = r ∧ r ≠ .error .panic := by
  refine ⟨split_thousands_lt n, ?_⟩
  by_cases h : ∃ i, L.megas.length < i ∧ n / 1000 ^ i % 1000 ≠ 0
  · refine ⟨.error (.conv .CannotConvert), (int_to_cardinal_dichotomy L hWF n).2 h, by simp⟩
  · push_neg at h
    obtain ⟨s, hs⟩ := (int_to_cardinal_dichotomy L hWF n).1 h
    exact ⟨.ok s, hs, by simp⟩

theorem C10_no_panic_witness :
    (932 ∈ split_thousands 81932 → (932 : Nat) < 1000) ∧
    ∃ r, int_to_cardinal Dutch ((81932 : Nat) : Int) = r ∧ r ≠ .error .panic :=
  ⟨fun h => (C10_no_panic Dutch Dutch_WF 81932).1 932 h,
   (C10_no_panic Dutch Dutch_WF 81932).2⟩

/-! ### Year heuristic -/

/-- The year rule as the spec states it: with high = num / 100 and
low = num % 100, spell the whole value as one cardinal when high is 0,
or high is a round multiple of ten with low below ten, or high is at
least 100; otherwise concatenate the cardinal of high with, for zero
low, the hundred word, else the cardinal of low, with no separator. -/
def year_core (L : LangData) (n : Nat) : M String :=
  if n / 100 = 0 ∨ (n / 100 % 10 = 0 ∧ n % 100 < 10) ∨ n / 100 ≥ 100 then
    int_to_cardinal L (n : Int)
  else do
    let high_word ← int_to_cardinal L ((n / 100 : Nat) : Int)
    let low_word ← if n % 100 = 0 then (.ok L.hundred : M String)
      else int_to_cardinal L ((n % 100 : Nat) : Int)
    (.ok (high_word ++ low_word) : M String)

theorem to_year_body (L : LangData) (n : Nat) (sfx : String) (hn : n < 100 * 2 ^ 63) :
    (do
      let high ← unwrapZ (BigF.to_i64 (BigF.div100 (BigF.fin false n [])))
      let low ← unwrapZ (BigF.to_i64 (BigF.mod100 (BigF.fin false n [])))
      let year_word ←
        if high = 0 ∨ (high % 10 = 0 ∧ low < 10) ∨ high ≥ 100 then
          int_to_cardinal L (BigF.toInt (BigF.fin false n []))
        else do
          let high_word ← int_to_cardinal L high
          let low_word ← if low = 0 then (.ok L.hundred : M String)
            else int_to_cardinal L low
          (.ok (high_word ++ low_word) : M String)
      (.ok (year_word ++ sfx) : M String)) =
      year_core L n >>= fun yw => .ok (yw ++ sfx) := by
  have hdiv : BigF.to_i64 (BigF.div100 (BigF.fin false n [])) =
      some ((n / 100 : Nat) : Int) := by
    show (if (n / 100 : Nat) < 2 ^ 63 then some (((n / 100 : Nat) : Int)) else none) = _
    rw [if_pos (by omega)]
  have hmod : BigF.to_i64 (BigF.mod100 (BigF.fin false n [])) =
      some ((n % 100 : Nat) : Int) := by
    show (if (n % 100 : Nat) < 2 ^ 63 then some (((n % 100 : Nat) : Int)) else none) = _
    rw [if_pos (by omega)]
  rw [hdiv, hmod]
  simp only [unwrapZ_some, ok_bind]
  have htoInt : BigF.toInt (BigF.fin false n []) = ((n : Nat) : Int) := rfl
  rw [htoInt]
  have hcond : (((n / 100 : Nat) : Int) = 0 ∨
      (((n / 100 : Nat) : Int) % 10 = 0 ∧ ((n % 100 : Nat) : Int) < 10) ∨
      ((n / 100 : Nat) : Int) ≥ 100) ↔
      (n / 100 = 0 ∨ (n / 100 % 10 = 0 ∧ n % 100 < 10) ∨ n / 100 ≥ 100) := by
    omega
  unfold year_core
  by_cases hcnat : n / 100 = 0 ∨ (n / 100 % 10 = 0 ∧ n % 100 < 10) ∨ n / 100 ≥ 100
  · rw [if_pos (hcond.mpr hcnat), if_pos hcnat]
  · rw [if_neg (fun hc => hcnat (hcond.mp hc)), if_neg hcnat]
    cases hx : int_to_cardinal L ((n / 100 : Nat) : Int) with
    | error e => rfl
    | ok hw =>
      simp only [ok_bind]
      have hlowiff : (((n % 100 : Nat) : Int) = 0) ↔ (n % 100 = 0) := by omega
      by_cases hlow : n % 100 = 0
      · rw [if_pos (hlowiff.mpr hlow), if_pos hlow]
        rfl
      · rw [if_neg (fun hh => hlow (hlowiff.mp hh)), if_neg hlow]
        cases hy : int_to_cardinal L ((n % 100 : Nat) : Int) with
        | error e => rfl
        | ok lw => rfl

theorem to_year_fin_false (L : LangData) (n : Nat) (hn : n < 100 * 2 ^ 63) :
    to_year L (.fin false n []) =
      year_core L n >>= fun yw => .ok (yw ++ "") := by
  rw [← to_year_body L n "" hn]
  rfl

theorem to_year_fin_true (L : LangData) (m : Nat) (hm : m < 100 * 2 ^ 63) :
    to_year L (.fin true m []) =
      year_core L m >>= fun yw => .ok (yw ++ L.bcSuffix) := by
  rw [← to_year_body L m L.bcSuffix hm]
  rfl

/-- to_year on a non-negative integer below the i64-narrowing bound
100 * 2^63 follows exactly the year_core branch rule, and a negative
integer of such magnitude is negated first with the BC suffix appended
after the whole spelled form. -/
theorem C2_year (L : LangData) :
    (∀ n : Nat, n < 100 * 2 ^ 63 → to_year L (.fin false n []) = year_core L n) ∧
    (∀ m : Nat, m < 100 * 2 ^ 63 → to_year L (.fin true m []) =
      Except.map (fun s => s ++ L.bcSuffix) (to_year L (.fin false m []))) := by
  constructor
  · intro n hn
    rw [to_year_fin_false L n hn]
    cases hx : year_core L n with
    | error e => rfl
    | ok yw =>
      rw [ok_bind, String.append_empty]
  · intro m hm
    rw [to_year_fin_true L m hm, to_year_fin_false L m hm]
    cases hx : year_core L m with
    | error e => rfl
    | ok yw =>
      rw [ok_bind, ok_bind, map_ok, String.append_empty]

theorem C2_year_witness :
    ((1990 : Nat) < 100 * 2 ^ 63) ∧
    to_year Dutch (.fin false 1990 []) = year_core Dutch 1990 ∧
    to_year Dutch (.fin true 44 []) =
      Except.map (fun s => s ++ Dutch.bcSuffix) (to_year Dutch (.fin false 44 [])) :=
  ⟨by decide, (C2_year Dutch).1 1990 (by decide), (C2_year Dutch).2 44 (by decide)⟩

/-- At 100 * 2^63 the century part no longer fits an i64, so the
`(num / 100).to_i64().unwrap()` of to_year panics, although the value
itself is well inside the cardinal's representable range (the claimed
plain-cardinal result exists). -/
theorem C2_year_counterexample :
    to_year Dutch (.fin false (100 * 2 ^ 63) []) = .error .panic ∧
    ∃ s, int_to_cardinal Dutch ((100 * 2 ^ 63 : Nat) : Int) = .ok s :=
  ⟨rfl,
   (int_to_cardinal_dichotomy Dutch Dutch_WF (100 * 2 ^ 63)).1 (fun i hi => by
     have hm : Dutch.megas.length = 21 := rfl
     rw [hm] at hi
     have hlt : (100 * 2 ^ 63 : Nat) < 1000 ^ i :=
       lt_of_lt_of_le (by decide : (100 * 2 ^ 63 : Nat) < 1000 ^ 22)
         (Nat.pow_le_pow_right (by decide) (by omega))
     rw [Nat.div_eq_of_lt hlt])⟩

/-! ### The inter-group conjunction -/

/-- Conjunction rule exactly as the claim words it: the first_elem flag
is cleared by every nonzero group, so a conjunction is inserted on the
ones group precisely when some higher nonzero group was emitted (and
the tens/units part is nonzero and the preceding token is no scale
word). -/
def assembleStep_claim3 (L : LangData) (i t : Nat) (ws : List String) (flag : Bool) :
    M (List String × Bool) := do
  let hundreds := t / 100 % 10
  let tens := t / 10 % 10
  let units := t % 10
  let ws ← hundredsWords L hundreds ws
  let ws ←
    if tens ≠ 0 ∨ units ≠ 0 then
      tensUnitsWords L tens units (conjPart L i flag ws).1
    else .ok ws
  let ws ← megaPart L i t ws
  .ok (ws, flag && (t == 0))

def assemble_claim3 (L : LangData) :
    List (Nat × Nat) → List String → Bool → M (List String)
  | [], ws, _ => .ok ws
  | (i, t) :: rest, ws, flag => do
    let (ws, flag) ← assembleStep_claim3 L i t ws flag
    assemble_claim3 L rest ws flag

def int_to_cardinal_claim3 (L : LangData) (z : Int) : M String :=
  if z = 0 then .ok "nul"
  else do
    let words : List String := if z < 0 then ["minus"] else []
    let ws ← assemble_claim3 L ((split_thousands z.natAbs).enum.reverse) words true
    .ok (String.join (space_words L ws))

/-- Conjunction rule as amended: the flag is cleared exactly by groups
whose tens/units part (value mod 100) is nonzero, so the conjunction is
inserted on the ones group precisely when some higher group with
nonzero tens/units part was emitted (and the ones tens/units part is
nonzero and the preceding token is no scale word). -/
def assembleStep_amended3 (L : LangData) (i t : Nat) (ws : List String) (flag : Bool) :
    M (List String × Bool) := do
  let hundreds := t / 100 % 10
  let tens := t / 10 % 10
  let units := t % 10
  let ws ← hundredsWords L hundreds ws
  let ws ←
    if tens ≠ 0 ∨ units ≠ 0 then
      tensUnitsWords L tens units (conjPart L i flag ws).1
    else .ok ws
  let ws ← megaPart L i t ws
  .ok (ws, flag && (t % 100 == 0))

def assemble_amended3 (L : LangData) :
    List (Nat × Nat) → List String → Bool → M (List String)
  | [], ws, _ => .ok ws
  | (i, t) :: rest, ws, flag => do
    let (ws, flag) ← assembleStep_amended3 L i t ws flag
    assemble_amended3 L rest ws flag

def int_to_cardinal_amended3 (L : LangData) (z : Int) : M String :=
  if z = 0 then .ok "nul"
  else do
    let words : List String := if z < 0 then ["minus"] else []
    let ws ← assemble_amended3 L ((split_thousands z.natAbs).enum.reverse) words true
    .ok (String.join (space_words L ws))

theorem assembleStep_amended3_eq (L : LangData) (i t : Nat) (ws : List String)
    (flag : Bool) :
    assembleStep L i t ws flag = assembleStep_amended3 L i t ws flag := by
  unfold assembleStep assembleStep_amended3
  dsimp only
  cases h1 : hundredsWords L (t / 100 % 10) ws with
  | error e => rfl
  | ok ws1 =>
    simp only [ok_bind]
    by_cases hc : t / 10 % 10 ≠ 0 ∨ t % 10 ≠ 0
    · simp only [if_pos hc]
      have hmod : (t % 100 == 0) = false := by
        have : t % 100 ≠ 0 := by omega
        simpa using this
      rcases hC : conjPart L i flag ws1 with ⟨wsC, flagC⟩
      have hflagC : flagC = false := by
        unfold conjPart at hC
        split_ifs at hC with hcond
        · cases hC
          exact hcond.2
        · cases hC
          rfl
      dsimp only
      cases h2 : tensUnitsWords L (t / 10 % 10) (t % 10) wsC with
      | error e => rfl
      | ok ws2 =>
        simp only [ok_bind]
        cases h3 : megaPart L i t ws2 with
        | error e => rfl
        | ok ws3 =>
          simp only [ok_bind]
          rw [hflagC, hmod, Bool.and_false]
    · simp only [if_neg hc, ok_bind]
      have hmod : (t % 100 == 0) = true := by
        have h10 : t / 10 % 10 = 0 := by
          by_contra h
          exact hc (Or.inl h)
        have h1u : t % 10 = 0 := by
          by_contra h
          exact hc (Or.inr h)
        have : t % 100 = 0 := by omega
        simpa using this
      cases h3 : megaPart L i t ws1 with
      | error e => rfl
      | ok ws3 =>
        simp only [ok_bind]
        rw [hmod, Bool.and_true]

theorem assemble_amended3_eq (L : LangData) :
    ∀ (l : List (Nat × Nat)) (ws : List String) (flag : Bool),
      assemble L l ws flag = assemble_amended3 L l ws flag := by
  intro l
  induction l with
  | nil => intro ws flag; rfl
  | cons p rest ih =>
    intro ws flag
    obtain ⟨i, t⟩ := p
    show (assembleStep L i t ws flag >>= fun q => assemble L rest q.1 q.2) =
      (assembleStep_amended3 L i t ws flag >>= fun q => assemble_amended3 L rest q.1 q.2)
    rw [← assembleStep_amended3_eq]
    cases hq : assembleStep L i t ws flag with
    | error e => rfl
    | ok q => simp only [ok_bind, ih]

/-- The cardinal assembly equals the amended-conjunction description on
every integer. -/
theorem C3_conjunction_amended (L : LangData) :
    ∀ z : Int, int_to_cardinal L z = int_to_cardinal_amended3 L z := by
  intro z
  unfold int_to_cardinal int_to_cardinal_amended3
  by_cases hz : z = 0
  · rw [if_pos hz, if_pos hz]
  · rw [if_neg hz, if_neg hz]
    dsimp only
    rw [assemble_amended3_eq]

/-- At 100101 every condition of the claim holds when the ones group is
processed (a higher nonzero group, 100, was emitted; the ones tens/units
part is 1; the preceding token "honderd" is not a scale word), yet the
code inserts no conjunction: the claim-worded assembly differs from the
code's. -/
theorem C3_conjunction_counterexample :
    int_to_cardinal Dutch ((100101 : Nat) : Int) = .ok "honderdduizend honderdéén" ∧
    int_to_cardinal_claim3 Dutch ((100101 : Nat) : Int) = .ok "honderdduizend honderdenéén" ∧
    ("honderdduizend honderdéén" : String) ≠ "honderdduizend honderdenéén" :=
  ⟨rfl, rfl, by decide⟩

/-! ### Currency composition -/

theorem to_currency_fin_intpart (L : LangData) (c : Currency) (b : Bool) (ip : Nat) :
    to_currency L c (.fin b ip []) =
      (do
        let words ← int_to_cardinal L (BigF.toInt (.fin b ip []))
        (.ok (words ++ " " ++ currencies c) : M String)) := rfl

theorem to_currency_fin_frac (L : LangData) (c : Currency) (b : Bool) (ip : Nat)
    (fd : List Nat) (hfd : BigF.fdZero fd = false) :
    to_currency L c (.fin b ip fd) =
      (do
        let cents_words ← int_to_cardinal L
          (BigF.mod100 (BigF.int (BigF.mul100 (.fin b ip fd)))).toInt
        let words ← int_to_cardinal L (BigF.toInt (.fin b ip []))
        let y ← (.ok (words ++ " " ++ currencies c) : M String)
        if (BigF.mod100 (BigF.int (BigF.mul100 (.fin b ip fd)))).is_zero then
          (.ok y : M String)
        else if (BigF.fin b ip []).is_zero then .ok (cents_words ++ " " ++ cents c)
        else .ok (y ++ " en " ++ cents_words ++ " " ++ cents c)) := by
  unfold to_currency
  have h1 : ¬ ((BigF.fin b ip fd).is_inf = true) := by simp
  have h2 : ¬ ((BigF.fin b ip fd).frac.is_zero = true) := by simp [hfd]
  rw [if_neg h1, if_neg h2]
  rfl

/-- to_currency: a zero-fraction value gives the integer cardinal plus
the major-unit name (zero gives the zero word plus the major name, never
an empty or minor-only phrase); infinity gives the infinity word plus
the major name with a minus prefix when negative; a fractional value
computes the minor units, returns only the major phrase when they are
zero, only the minor phrase when the integer part is zero, and
otherwise joins the major phrase of the integer part and the minor
phrase with the "and" word. -/
theorem C7_currency (L : LangData) (c : Currency) :
    (∀ (b : Bool) (ip : Nat) (fd : List Nat), BigF.fdZero fd = true →
      to_currency L c (.fin b ip fd) =
        Except.map (fun w => w ++ " " ++ currencies c)
          (int_to_cardinal L (BigF.toInt (.fin b ip fd)))) ∧
    (to_currency L c (.fin false 0 []) = .ok ("nul " ++ currencies c)) ∧
    (∀ b : Bool, to_currency L c (.inf b) =
      .ok ((if b then "minus " else "") ++ L.infPos ++ " " ++ currencies c)) ∧
    (∀ (b : Bool) (ip : Nat) (fd : List Nat), BigF.fdZero fd = false →
      to_currency L c (.fin b ip fd) =
        (do
          let cents_nb := BigF.mod100 (BigF.int (BigF.mul100 (.fin b ip fd)))
          let cents_words ← int_to_cardinal L cents_nb.toInt
          let integral_word ← to_currency L c (BigF.int (.fin b ip fd))
          if cents_nb.is_zero then (.ok integral_word : M String)
          else if (BigF.int (.fin b ip fd)).is_zero then
            .ok (cents_words ++ " " ++ cents c)
          else .ok (integral_word ++ " en " ++ cents_words ++ " " ++ cents c))) := by
  refine ⟨?_, ?_, ?_, ?_⟩
  · intro b ip fd hfd
    unfold to_currency
    have h1 : ¬ ((BigF.fin b ip fd).is_inf = true) := by simp
    have h2 : ((BigF.fin b ip fd).frac.is_zero = true) := by simp [hfd]
    rw [if_neg h1, if_pos h2]
    cases hx : int_to_cardinal L (BigF.toInt (.fin b ip fd)) with
    | error e => rfl
    | ok w => rfl
  · rfl
  · intro b
    cases b <;> rfl
  · intro b ip fd hfd
    rw [to_currency_fin_frac L c b ip fd hfd]
    dsimp only
    rw [int_fin, to_currency_fin_intpart]
    cases hc : int_to_cardinal L
        (BigF.mod100 (BigF.int (BigF.mul100 (.fin b ip fd)))).toInt with
    | error e => rfl
    | ok cw =>
      simp only [ok_bind]
      cases hi : int_to_cardinal L (BigF.toInt (.fin b ip [])) with
      | error e => rfl
      | ok iw => rfl

theorem C7_currency_witness :
    (BigF.fdZero ([] : List Nat) = true) ∧
    to_currency Dutch ⟨"dollar", "cent"⟩ (.fin false 4000 []) =
      Except.map (fun w => w ++ " " ++ currencies ⟨"dollar", "cent"⟩)
        (int_to_cardinal Dutch (BigF.toInt (.fin false 4000 []))) ∧
    to_currency Dutch ⟨"dollar", "cent"⟩ (.fin false 0 []) =
      .ok ("nul " ++ currencies ⟨"dollar", "cent"⟩) ∧
    (BigF.fdZero [0, 1] = false) ∧
    to_currency Dutch ⟨"dollar", "cent"⟩ (.fin false 1 [0, 1]) =
      .ok "één dollar en één cent" :=
  ⟨rfl,
   (C7_currency Dutch ⟨"dollar", "cent"⟩).1 false 4000 [] rfl,
   (C7_currency Dutch ⟨"dollar", "cent"⟩).2.1,
   rfl,
   rfl⟩

/-! ### Cent extraction is exact multiply-then-truncate -/

/-- Rational value of a fraction-digit list. -/
def fracVal : List Nat → ℚ
  | [] => 0
  | d :: r => ((d : ℚ) + fracVal r) / 10

/-- Rational value of a finite BigFloat model value. -/
def BigF.val : BigF → ℚ
  | .fin neg ip fd => (if neg then (-1 : ℚ) else 1) * ((ip : ℚ) + fracVal fd)
  | .inf _ => 0

theorem fracVal_nil : fracVal [] = 0 := rfl

theorem fracVal_cons (d : Nat) (r : List Nat) :
    fracVal (d :: r) = ((d : ℚ) + fracVal r) / 10 := rfl

theorem fracVal_nonneg : ∀ fd : List Nat, 0 ≤ fracVal fd := by
  intro fd
  induction fd with
  | nil => exact le_refl 0
  | cons d r ih =>
    rw [fracVal_cons]
    exact div_nonneg (add_nonneg (by positivity) ih) (by norm_num)

theorem fracVal_lt_one : ∀ fd : List Nat, (∀ d ∈ fd, d < 10) → fracVal fd < 1 := by
  intro fd
  induction fd with
  | nil => intro _; rw [fracVal_nil]; norm_num
  | cons d r ih =>
    intro h
    have hd : (d : ℚ) ≤ 9 := by
      have := h d (List.mem_cons_self d r)
      exact_mod_cast Nat.lt_succ_iff.mp this
    have hr : fracVal r < 1 := ih (fun x hx => h x (List.mem_cons_of_mem _ hx))
    rw [fracVal_cons, div_lt_one (by norm_num)]
    linarith

theorem fracVal_cons_cons (d1 d2 : Nat) (r : List Nat) :
    100 * fracVal (d1 :: d2 :: r) = 10 * (d1 : ℚ) + (d2 : ℚ) + fracVal r := by
  rw [fracVal_cons, fracVal_cons]
  ring

/-- The minor-unit count computed in the fractional branch of
to_currency equals the floor of 100 times the exact value, modulo 100 —
truncation, not rounding: at 0.999 truncation yields 99 cents where
round-half-up would yield 100, and the currency output spells 99. -/
theorem C8_cents_truncate (ip : Nat) (fd : List Nat) (hfd : ∀ d ∈ fd, d < 10) :
    ((BigF.mod100 (BigF.int (BigF.mul100 (.fin false ip fd)))).toInt
        = ⌊BigF.val (.fin false ip fd) * 100⌋ % 100) ∧
    (⌊BigF.val (.fin false 0 [9, 9, 9]) * 100⌋ % 100 = 99 ∧
      round (BigF.val (.fin false 0 [9, 9, 9]) * 100) % 100 = 0 ∧
      to_currency Dutch ⟨"dollar", "cent"⟩ (.fin false 0 [9, 9, 9]) =
        .ok "negenennegentig cent") := by
  have hv999 : BigF.val (.fin false 0 [9, 9, 9]) * 100 = (999 : ℚ) / 10 := by
    show (1 : ℚ) * (((0 : Nat) : ℚ) + fracVal [9, 9, 9]) * 100 = (999 : ℚ) / 10
    rw [fracVal_cons, fracVal_cons, fracVal_cons, fracVal_nil]
    norm_num
  refine ⟨?_, ?_, ?_, rfl⟩
  · have hval : BigF.val (.fin false ip fd) * 100 =
        ((100 * ip + 10 * fd.headD 0 + (fd.tail).headD 0 : Nat) : ℚ)
          + fracVal (fd.tail).tail := by
      match fd with
      | [] =>
        show (1 : ℚ) * ((ip : ℚ) + fracVal []) * 100 =
          ((100 * ip + 10 * 0 + 0 : Nat) : ℚ) + fracVal []
        rw [fracVal_nil]
        push_cast
        ring
      | [d1] =>
        show (1 : ℚ) * ((ip : ℚ) + fracVal [d1]) * 100 =
          ((100 * ip + 10 * d1 + 0 : Nat) : ℚ) + fracVal []
        rw [fracVal_cons, fracVal_nil]
        push_cast
        ring
      | d1 :: d2 :: r =>
        show (1 : ℚ) * ((ip : ℚ) + fracVal (d1 :: d2 :: r)) * 100 =
          ((100 * ip + 10 * d1 + d2 : Nat) : ℚ) + fracVal r
        have h100 := fracVal_cons_cons d1 d2 r
        push_cast
        linarith
    rw [hval]
    have hfr0 : 0 ≤ fracVal (fd.tail).tail := fracVal_nonneg _
    have hfr1 : fracVal (fd.tail).tail < 1 := by
      apply fracVal_lt_one
      intro d hd
      exact hfd d (List.mem_of_mem_tail (List.mem_of_mem_tail hd))
    rw [Int.floor_nat_add, Int.floor_eq_zero_iff.mpr ⟨hfr0, hfr1⟩, add_zero]
    have hlhs : (BigF.mod100 (BigF.int (BigF.mul100 (.fin false ip fd)))).toInt =
        (((100 * ip + 10 * fd.headD 0 + (fd.tail).headD 0) % 100 : Nat) : Int) := rfl
    rw [hlhs]
    push_cast
    omega
  · rw [hv999]
    have : (999 : ℚ) / 10 = ((99 : ℤ) : ℚ) + 9 / 10 := by norm_num
    rw [this, Int.floor_int_add,
      Int.floor_eq_zero_iff.mpr ⟨by norm_num, by norm_num⟩]
    decide
  · rw [hv999, round_eq]
    have : (999 : ℚ) / 10 + 1 / 2 = ((100 : ℤ) : ℚ) + 4 / 10 := by norm_num
    rw [this, Int.floor_int_add,
      Int.floor_eq_zero_iff.mpr ⟨by norm_num, by norm_num⟩]
    decide
/-! ### The ordinal lookup table and the ordinal guard -/

/-- The ordinal lookup table is keyed on the English words one..twelve,
which the Dutch and Frisian cardinals never produce: the locale words
for 1, 3 and 8 therefore take the default -de rule, yielding "éénde",
"driede", "achtde" (resp. "iende") instead of the irregular table values
"eerste", "derde", "achtste" (resp. "earste") that the table holds. -/
theorem C1_ordinal_table_dead :
    to_ordinal Dutch (.fin false 1 []) = .ok "éénde" ∧
    to_ordinal Dutch (.fin false 3 []) = .ok "driede" ∧
    to_ordinal Dutch (.fin false 8 []) = .ok "achtde" ∧
    to_ordinal Frisian (.fin false 1 []) = .ok "iende" ∧
    List.lookup "één" Dutch.ordTable = none ∧
    List.lookup "one" Dutch.ordTable = some "eerste" ∧
    ("éénde" : String) ≠ "eerste" :=
  ⟨rfl, rfl, rfl, rfl, rfl, rfl, by decide⟩

/-- The guard checks the sign first: negative infinity produces
NegativeOrdinal, not InfiniteOrdinal, and a negative non-integer
produces NegativeOrdinal, not FloatingOrdinal, refuting the claim's
universal statements for infinite and fractional inputs. -/
theorem C6_ordinal_guard_counterexample :
    ordinal Dutch (.inf true) = .error (.conv .NegativeOrdinal) ∧
    ordinal Dutch (.fin true 1 [5]) = .error (.conv .NegativeOrdinal) ∧
    Num2Err.NegativeOrdinal ≠ Num2Err.InfiniteOrdinal ∧
    Num2Err.NegativeOrdinal ≠ Num2Err.FloatingOrdinal :=
  ⟨rfl, rfl, by decide, by decide⟩

/-- Both ordinal registers reject invalid inputs before composing: any
negative value gives NegativeOrdinal, a non-negative finite value with
nonzero fraction gives FloatingOrdinal, and positive infinity gives
InfiniteOrdinal; no string is produced in those cases. -/
theorem C6_ordinal_guard (L : LangData) :
    (∀ v : BigF, v.is_negative = true →
      ordinal L v = .error (.conv .NegativeOrdinal) ∧
      ordinal_num L v = .error (.conv .NegativeOrdinal)) ∧
    (∀ (ip : Nat) (fd : List Nat), BigF.fdZero fd = false →
      ordinal L (.fin false ip fd) = .error (.conv .FloatingOrdinal) ∧
      ordinal_num L (.fin false ip fd) = .error (.conv .FloatingOrdinal)) ∧
    (ordinal L (.inf false) = .error (.conv .InfiniteOrdinal) ∧
      ordinal_num L (.inf false) = .error (.conv .InfiniteOrdinal)) := by
  refine ⟨?_, ?_, rfl, rfl⟩
  · intro v hv
    constructor
    · unfold ordinal ordinal_guard
      rw [if_pos hv]
    · unfold ordinal_num ordinal_guard
      rw [if_pos hv]
  · intro ip fd hfd
    have h1 : ¬ ((BigF.fin false ip fd).is_negative = true) := by simp
    have h2 : ¬ ((BigF.fin false ip fd).is_inf = true) := by simp
    have h3 : ¬ ((BigF.frac (BigF.fin false ip fd)).is_zero = true) := by simp [hfd]
    constructor
    · unfold ordinal ordinal_guard
      rw [if_neg h1, if_neg h2, if_pos h3]
    · unfold ordinal_num ordinal_guard
      rw [if_neg h1, if_neg h2, if_pos h3]

theorem C6_ordinal_guard_witness :
    ((BigF.fin true 1 []).is_negative = true) ∧
    ordinal Dutch (.fin true 1 []) = .error (.conv .NegativeOrdinal) ∧
    (BigF.fdZero [3] = false) ∧
    ordinal_num Dutch (.fin false 7 [3]) = .error (.conv .FloatingOrdinal) ∧
    ordinal Dutch (.inf false) = .error (.conv .InfiniteOrdinal) :=
  ⟨rfl, ((C6_ordinal_guard Dutch).1 (.fin true 1 []) rfl).1, rfl,
   ((C6_ordinal_guard Dutch).2.1 7 [3] rfl).2, (C6_ordinal_guard Dutch).2.2.1⟩

theorem C8_cents_truncate_witness :
    (∀ d ∈ [0, 1], d < 10) ∧
    ((BigF.mod100 (BigF.int (BigF.mul100 (.fin false 1 [0, 1])))).toInt
        = ⌊BigF.val (.fin false 1 [0, 1]) * 100⌋ % 100) :=
  ⟨by decide, (C8_cents_truncate 1 [0, 1] (by decide)).1⟩
